import Mathlib

/-!
# Joybus PIO driver: byte-level transport

A shallow embedding of `src/joybus.cpp`.  The driver talks to a PIO state
machine and to the platform timer.  Every call the driver makes to one of
them is recorded, in program order, as an `Op` in a history; the answers of
the peripheral and of the timer are given by a `Hardware`, whose oracles may
depend on the whole history so far, so that a `Hardware` stands for an
arbitrary deterministic behaviour of the peripheral and of the clock.

Machine integers are natural numbers with an explicit reduction where the
source can wrap: the `uint8_t` counter of `joybus_receive_bytes`, the
`uint` value of `len - 1` in `joybus_send_bytes`, the 32-bit word of
`joybus_send_byte`, the `uint sm` of `joybus_port_init` that holds the `int`
answer of the state-machine claim, and the `uint8_t` accumulator of
`joybus_receive_byte_timeout`.
-/

namespace Joybus

/-- The port handle `joybus_port_t`. -/
structure joybus_port_t where
  pin : Nat
  pio : Nat
  sm : Nat
  offset : Nat
  deriving DecidableEq, Repr

/-- One call from the driver to the peripheral program service or to the
timer service, with the answer it got. -/
inductive Op where
  /-- `joybus_program_receive_init(pio, sm, offset, pin)` -/
  | receive_init (pio sm offset pin : Nat)
  /-- `joybus_program_send_init(pio, sm, offset, pin)` -/
  | send_init (pio sm offset pin : Nat)
  /-- `pio_sm_put_blocking(pio, sm, word)` -/
  | put (pio sm word : Nat)
  /-- `pio_sm_get_blocking(pio, sm)` returning `word` -/
  | get (pio sm word : Nat)
  /-- `pio_sm_is_rx_fifo_empty(pio, sm)` returning `empty` -/
  | rx_fifo_empty (pio sm : Nat) (empty : Bool)
  /-- `make_timeout_time_us(us)` returning `deadline` -/
  | make_timeout (us deadline : Nat)
  /-- `time_reached(deadline)` returning `reached` -/
  | time_reached (deadline : Nat) (reached : Bool)
  deriving DecidableEq, Repr

/-- The behaviour of the peripheral and of the timer: each oracle answers a
call from the history of all calls made before it.  `pio_sm_get_blocking`
answers `none` when the RX queue never fills, in which case the call never
returns. -/
structure Hardware where
  pio_sm_get_blocking : List Op → Nat → Nat → Option Nat
  pio_sm_is_rx_fifo_empty : List Op → Nat → Nat → Bool
  make_timeout_time_us : List Op → Nat → Nat
  time_reached : List Op → Nat → Bool

/-- What a receive call hands back: the returned count, the caller's buffer
after the call, and the history of calls at the moment of return. -/
structure Received where
  count : Nat
  buf : Nat → Nat
  trace : List Op

/-- Predicate: the call is a blocking read of the RX queue. -/
def Op.isGet : Op → Bool
  | .get _ _ _ => true
  | _ => false

/-- Predicate: the call is a poll of the RX queue's empty flag. -/
def Op.isPoll : Op → Bool
  | .rx_fifo_empty _ _ _ => true
  | _ => false

/-- Predicate: the call pushes a word to the TX queue. -/
def Op.isPut : Op → Bool
  | .put _ _ _ => true
  | _ => false

/-- Predicate: the call applies the transmit-mode configuration. -/
def Op.isSendInit : Op → Bool
  | .send_init _ _ _ _ => true
  | _ => false

/-- Predicate: the call applies the receive-mode configuration. -/
def Op.isReceiveInit : Op → Bool
  | .receive_init _ _ _ _ => true
  | _ => false

/-- Predicate: the call is one of those `joybus_receive_bytes` can make: a
deadline computation, a deadline check, a queue poll or a queue read. -/
def Op.isReceiveSide : Op → Bool
  | .get _ _ _ => true
  | .rx_fifo_empty _ _ _ => true
  | .make_timeout _ _ => true
  | .time_reached _ _ => true
  | _ => false

/-- The number of blocking queue reads in a history. -/
def countGets (h : List Op) : Nat := (h.filter Op.isGet).length

/-- The number of deadline checks in a history. -/
def countChecks (h : List Op) : Nat :=
  (h.filter (fun o => match o with | .time_reached _ _ => true | _ => false)).length

/-! ## Receive path -/

/-- The inner loop of `joybus_receive_bytes`:
`while (pio_sm_is_rx_fifo_empty(..)) { if (time_reached(ts)) return ..; }`.
Answers `some (true, h)` when the loop is left with data in the queue,
`some (false, h)` when the deadline fired (the function returns), and `none`
when `fuel` iterations did not settle it. -/
def wait_rx (H : Hardware) (port : joybus_port_t) (ts : Nat) :
    Nat → List Op → Option (Bool × List Op)
  | 0, _ => none
  | fuel + 1, h =>
    let empty := H.pio_sm_is_rx_fifo_empty h port.pio port.sm
    let h1 := h ++ [Op.rx_fifo_empty port.pio port.sm empty]
    if empty then
      let reached := H.time_reached h1 ts
      let h2 := h1 ++ [Op.time_reached ts reached]
      if reached then some (false, h2) else wait_rx H port ts fuel h2
    else some (true, h1)

/-- The call `joybus_receive_byte(port)`: a blocking pop of the RX queue,
truncated to `uint8_t`. -/
def joybus_receive_byte (H : Hardware) (port : joybus_port_t) (h : List Op) :
    Option (Nat × List Op) :=
  match H.pio_sm_get_blocking h port.pio port.sm with
  | none => none
  | some w => some (w % 256, h ++ [Op.get port.pio port.sm w])

/-- The `for` loop of `joybus_receive_bytes`, entered at its test with the
`uint8_t` counter at `bytes_received`; the increment is reduced modulo 256
and the test `bytes_received < len` compares the promoted counter with the
`uint` length.  Each pass through the body takes one unit of fuel.  `none`
means the call has not returned: out of fuel, or blocked for ever in
`pio_sm_get_blocking`. -/
def receive_loop (H : Hardware) (port : joybus_port_t) (len timeout_us : Nat) :
    Nat → Nat → (Nat → Nat) → List Op → Option Received
  | 0, bytes_received, buf, h =>
    if bytes_received < len then none else some ⟨bytes_received, buf, h⟩
  | fuel + 1, bytes_received, buf, h =>
    if bytes_received < len then
      if 0 < bytes_received then
        let ts := H.make_timeout_time_us h timeout_us
        let h1 := h ++ [Op.make_timeout timeout_us ts]
        match wait_rx H port ts fuel h1 with
        | none => none
        | some (false, h2) => some ⟨bytes_received, buf, h2⟩
        | some (true, h2) =>
          match joybus_receive_byte H port h2 with
          | none => none
          | some (b, h3) =>
            receive_loop H port len timeout_us fuel ((bytes_received + 1) % 256)
              (Function.update buf bytes_received b) h3
      else
        match joybus_receive_byte H port h with
        | none => none
        | some (b, h3) =>
          receive_loop H port len timeout_us fuel ((bytes_received + 1) % 256)
            (Function.update buf bytes_received b) h3
    else some ⟨bytes_received, buf, h⟩

/-- The function `joybus_receive_bytes(port, buf, len, timeout_us)`, run
from history `h` with `fuel` loop iterations available. -/
def joybus_receive_bytes (H : Hardware) (port : joybus_port_t) (buf : Nat → Nat)
    (len timeout_us : Nat) (fuel : Nat) (h : List Op) : Option Received :=
  receive_loop H port len timeout_us fuel 0 buf h

/-! ## Transmit path -/

/-- The word `data_shifted` of `joybus_send_byte`: `(byte << 24) | (stop << 23)`
computed on 32 bits. -/
def data_shifted (byte : Nat) (stop : Bool) : Nat :=
  ((byte <<< 24) % 2 ^ 32 ||| ((if stop then 1 else 0) <<< 23) % 2 ^ 32) % 2 ^ 32

/-- The function `joybus_send_byte(port, byte, stop)`. -/
def joybus_send_byte (port : joybus_port_t) (byte : Nat) (stop : Bool) (h : List Op) :
    List Op :=
  h ++ [Op.put port.pio port.sm (data_shifted byte stop)]

/-- The `for` loop of `joybus_send_bytes`, entered at its test with counter
`i`.  The counter is held as the unsigned value the comparisons `i < len`
and `i == len - 1` convert it to; `len - 1` is a `uint` subtraction. -/
def send_loop (port : joybus_port_t) (bytes : List Nat) (len : Nat) (i : Nat)
    (h : List Op) : List Op :=
  if i < len then
    send_loop port bytes len (i + 1)
      (joybus_send_byte port (bytes.getD i 0)
        (decide (i % 2 ^ 32 = (len + 2 ^ 32 - 1) % 2 ^ 32)) h)
  else h
termination_by len - i

/-- The function `joybus_send_bytes(port, bytes, len)`. -/
def joybus_send_bytes (port : joybus_port_t) (bytes : List Nat) (len : Nat)
    (h : List Op) : List Op :=
  send_loop port bytes len 0
    (h ++ [Op.send_init port.pio port.sm port.offset port.pin])

/-! ## Mode controller and transaction -/

/-- The function `joybus_reset_receive(port)`. -/
def joybus_reset_receive (port : joybus_port_t) (h : List Op) : List Op :=
  h ++ [Op.receive_init port.pio port.sm port.offset port.pin]

/-- The function `joybus_send_receive(port, message, message_len,
response_buf, response_len, read_timeout_us)`. -/
def joybus_send_receive (H : Hardware) (port : joybus_port_t) (message : List Nat)
    (message_len : Nat) (response_buf : Nat → Nat) (response_len read_timeout_us : Nat)
    (fuel : Nat) (h : List Op) : Option Received :=
  let h1 :=
    if 0 < message_len then joybus_send_bytes port message message_len h
    else joybus_reset_receive port h
  joybus_receive_bytes H port response_buf response_len read_timeout_us fuel h1

/-! ## Concrete peripherals used for evaluation -/

/-- A responder that delivers the words of `words`, one per read, and then
stops: the RX queue is empty once they are consumed, a read then blocks for
ever, and every deadline is found reached at its first check. -/
def scripted (words : List Nat) : Hardware where
  pio_sm_get_blocking h _ _ :=
    if countGets h < words.length then some (words.getD (countGets h) 0) else none
  pio_sm_is_rx_fifo_empty h _ _ := decide (words.length ≤ countGets h)
  make_timeout_time_us h us := countChecks h + us
  time_reached _ _ := true

/-- A responder that always has a byte ready: no deadline ever fires. -/
def alwaysReady (word : Nat) : Hardware where
  pio_sm_get_blocking _ _ _ := some word
  pio_sm_is_rx_fifo_empty _ _ _ := false
  make_timeout_time_us _ us := us
  time_reached _ _ := false

/-- A script of 257 words: `0x11`, then 255 zero words, then `0xEE`. -/
def wrapScript : List Nat := 0x11 :: List.replicate 255 0 ++ [0xEE]

/-- The port used in the evaluations. -/
def port0 : joybus_port_t := ⟨2, 0, 1, 7⟩

/-- The all-zero buffer. -/
def zeroBuf : Nat → Nat := fun _ => 0

/-! ## Port initialisation -/

/-- The SDK allocation services called by port initialisation; they are not
part of this repository.  `pio_claim_unused_sm pio required` answers the
claimed state machine, or `-1` when none is free and `required` is false;
`pio_add_program pio` answers the offset the program was loaded at. -/
structure Sdk where
  pio_claim_unused_sm : Nat → Bool → Int
  pio_add_program : Nat → Nat

/-- One call made during port initialisation: to the SDK allocator, or to the
peripheral program service. -/
inductive SetupOp where
  /-- `pio_claim_unused_sm(pio, required)` returning `result` -/
  | claim_unused_sm (pio : Nat) (required : Bool) (result : Int)
  /-- `pio_add_program(pio, &joybus_program)` returning `offset` -/
  | add_program (pio : Nat) (offset : Nat)
  /-- a call to the peripheral program service -/
  | service (o : Op)
  deriving DecidableEq, Repr

/-- What `joybus_port_init(port, pin, pio, sm, offset)` hands back: the
returned `int`, the port after the call, and the history of calls. -/
structure PortInit where
  result : Int
  port : joybus_port_t
  trace : List Op
  deriving DecidableEq, Repr

/-- What the allocating overloads of `joybus_port_init` hand back. -/
structure PortSetup where
  result : Int
  port : joybus_port_t
  trace : List SetupOp
  deriving DecidableEq, Repr

/-- The overload `joybus_port_init(port, pin, pio, sm, offset)`. -/
def joybus_port_init5 (port : joybus_port_t) (pin pio sm offset : Nat) (h : List Op) :
    PortInit :=
  let port := { port with pin := pin }
  let port := { port with pio := pio }
  let port := { port with sm := sm }
  let port := { port with offset := offset }
  ⟨0, port, h ++ [Op.receive_init pio sm offset pin]⟩

/-- The overload `joybus_port_init(port, pin, pio, sm)`: loads the program
and initialises the port at the offset it got. -/
def joybus_port_init4 (S : Sdk) (port : joybus_port_t) (pin pio sm : Nat)
    (h : List SetupOp) : PortSetup :=
  let offset := S.pio_add_program pio
  let r := joybus_port_init5 port pin pio sm offset []
  ⟨r.result, r.port, h ++ [SetupOp.add_program pio offset] ++ r.trace.map SetupOp.service⟩

/-- The overload `joybus_port_init(port, pin, pio)`.  The `int` answer of
`pio_claim_unused_sm` is stored in the `uint sm`, and the test `sm < 0` is
made on that unsigned value. -/
def joybus_port_init3 (S : Sdk) (port : joybus_port_t) (pin pio : Nat)
    (h : List SetupOp) : PortSetup :=
  let claimed := S.pio_claim_unused_sm pio false
  let h1 := h ++ [SetupOp.claim_unused_sm pio false claimed]
  let sm : Nat := (claimed % 2 ^ 32).toNat
  if sm < 0 then ⟨1, port, h1⟩
  else joybus_port_init4 S port pin pio sm h1

/-- An allocator with no free state machine: the claim answers `-1`; the
program would load at `offset`. -/
def noFreeSm (offset : Nat) : Sdk where
  pio_claim_unused_sm _ _ := -1
  pio_add_program _ := offset

/-! ## Bit-level receive -/

/-- What `joybus_receive_byte_timeout` hands back: the returned flag, the
value of `*byte` after the call, and the history of calls at return. -/
structure ReceivedByte where
  ok : Bool
  byte : Nat
  trace : List Op
  deriving DecidableEq, Repr

/-- The `for` loop of `joybus_receive_byte_timeout`, entered at its test with
the counter at `bits_received` and the accumulator at `received_byte`;
`byte` is the value of `*byte` at the call.  The polling loop is the one of
`joybus_receive_bytes`.  Each pass takes one unit of fuel; `none` means the
call has not returned. -/
def receive_bits_loop (H : Hardware) (port : joybus_port_t) (timeout_us byte : Nat) :
    Nat → Nat → Nat → List Op → Option ReceivedByte
  | 0, bits_received, received_byte, h =>
    if bits_received < 8 then none else some ⟨true, received_byte, h⟩
  | fuel + 1, bits_received, received_byte, h =>
    if bits_received < 8 then
      if 0 < bits_received then
        let ts := H.make_timeout_time_us h timeout_us
        let h1 := h ++ [Op.make_timeout timeout_us ts]
        match wait_rx H port ts fuel h1 with
        | none => none
        | some (false, h2) => some ⟨false, byte, h2⟩
        | some (true, h2) =>
          match H.pio_sm_get_blocking h2 port.pio port.sm with
          | none => none
          | some w =>
            let received_bit := decide (w % 2 ^ 32 &&& 1 ≠ 0)
            receive_bits_loop H port timeout_us byte fuel (bits_received + 1)
              ((received_byte ||| (if received_bit then 1 else 0) <<< bits_received) % 256)
              (h2 ++ [Op.get port.pio port.sm w])
      else
        match H.pio_sm_get_blocking h port.pio port.sm with
        | none => none
        | some w =>
          let received_bit := decide (w % 2 ^ 32 &&& 1 ≠ 0)
          receive_bits_loop H port timeout_us byte fuel (bits_received + 1)
            ((received_byte ||| (if received_bit then 1 else 0) <<< bits_received) % 256)
            (h ++ [Op.get port.pio port.sm w])
    else some ⟨true, received_byte, h⟩

/-- The function `joybus_receive_byte_timeout(port, byte, timeout_us)`, run
from history `h` with `*byte = byte` at the call. -/
def joybus_receive_byte_timeout (H : Hardware) (port : joybus_port_t) (byte timeout_us : Nat)
    (fuel : Nat) (h : List Op) : Option ReceivedByte :=
  receive_bits_loop H port timeout_us byte fuel 0 0 h

/-- The words popped from the RX queue in a history, oldest first. -/
def getWords : List Op → List Nat
  | [] => []
  | Op.get _ _ w :: t => w :: getWords t
  | _ :: t => getWords t

/-- Predicate: the call is a poll of the RX queue or a deadline check that
found the deadline not yet reached. -/
def Op.isIdleWait : Op → Bool
  | .rx_fifo_empty _ _ _ => true
  | .time_reached _ reached => !reached
  | _ => false

/-- The calls of one completed pass of a receive loop for a slot after the
first: the deadline `p.1`, the polls and checks `p.2.1`, the read of word
`p.2.2`. -/
def timedRead (port : joybus_port_t) (timeout_us : Nat) (p : Nat × List Op × Nat) : List Op :=
  Op.make_timeout timeout_us p.1 :: (p.2.1 ++ [Op.get port.pio port.sm p.2.2])

/-- The calls of a run of completed passes, in order. -/
def timedReads (port : joybus_port_t) (timeout_us : Nat) : List (Nat × List Op × Nat) → List Op
  | [] => []
  | p :: ps => timedRead port timeout_us p ++ timedReads port timeout_us ps

/-- The value of a sequence of words read as bits, least significant first:
the sum of `(w_i % 2) * 2^i`. -/
def lsbValue : List Nat → Nat
  | [] => 0
  | w :: ws => w % 2 + 2 * lsbValue ws

/-! ## Buffer writes -/

/-- The indices of the buffer writes `buf[bytes_received] = ..` made by the
`for` loop of `joybus_receive_bytes` in its first `fuel` passes, in order,
whether or not the call returns within them.  Same control flow as
`receive_loop`. -/
def receive_writes (H : Hardware) (port : joybus_port_t) (len timeout_us : Nat) :
    Nat → Nat → List Op → List Nat
  | 0, _, _ => []
  | fuel + 1, bytes_received, h =>
    if bytes_received < len then
      if 0 < bytes_received then
        let ts := H.make_timeout_time_us h timeout_us
        let h1 := h ++ [Op.make_timeout timeout_us ts]
        match wait_rx H port ts fuel h1 with
        | none => []
        | some (false, _) => []
        | some (true, h2) =>
          match joybus_receive_byte H port h2 with
          | none => []
          | some (_, h3) =>
            bytes_received ::
              receive_writes H port len timeout_us fuel ((bytes_received + 1) % 256) h3
      else
        match joybus_receive_byte H port h with
        | none => []
        | some (_, h3) =>
          bytes_received ::
            receive_writes H port len timeout_us fuel ((bytes_received + 1) % 256) h3
    else []

/-! ## Histories -/

/-- The history `h'` continues `h` by calls that all satisfy `P`. -/
def Continues (P : Op → Bool) (h h' : List Op) : Prop :=
  ∃ s, h' = h ++ s ∧ ∀ o ∈ s, P o = true

theorem Continues.refl (P : Op → Bool) (h : List Op) : Continues P h h :=
  ⟨[], by simp, by simp⟩

theorem Continues.snoc {P : Op → Bool} {h h' : List Op} (c : Continues P h h') (e : Op)
    (he : P e = true) : Continues P h (h' ++ [e]) := by
  obtain ⟨s, hs, hall⟩ := c
  refine ⟨s ++ [e], by rw [hs, List.append_assoc], ?_⟩
  intro o ho
  rcases List.mem_append.mp ho with ho | ho
  · exact hall o ho
  · rw [List.mem_singleton.mp ho]; exact he

theorem Continues.trans {P : Op → Bool} {h h' h'' : List Op} (c : Continues P h h')
    (d : Continues P h' h'') : Continues P h h'' := by
  obtain ⟨s, hs, hall⟩ := c
  obtain ⟨s', hs', hall'⟩ := d
  refine ⟨s ++ s', by rw [hs', hs, List.append_assoc], ?_⟩
  intro o ho
  rcases List.mem_append.mp ho with ho | ho
  · exact hall o ho
  · exact hall' o ho

theorem Continues.cons_left {P : Op → Bool} {h h' : List Op} {e : Op}
    (c : Continues P (h ++ [e]) h') : ∃ s, h' = h ++ e :: s ∧ ∀ o ∈ s, P o = true := by
  obtain ⟨s, hs, hall⟩ := c
  exact ⟨s, by rw [hs, List.append_assoc, List.singleton_append], hall⟩

/-! ## The receive path: histories and counts -/

/-- The inner polling loop only appends receive-side calls to the history. -/
theorem wait_rx_trace (H : Hardware) (port : joybus_port_t) (ts : Nat) :
    ∀ (fuel : Nat) (h : List Op) (b : Bool) (h' : List Op),
      wait_rx H port ts fuel h = some (b, h') → Continues Op.isReceiveSide h h' := by
  intro fuel
  induction fuel with
  | zero => intro h b h' hr; simp [wait_rx] at hr
  | succ fuel ih =>
    intro h b h' hr
    simp only [wait_rx] at hr
    split at hr
    · split at hr
      · simp only [Option.some.injEq, Prod.mk.injEq] at hr
        rw [← hr.2]
        exact ((Continues.refl _ h).snoc _ rfl).snoc _ rfl
      · exact (((Continues.refl _ h).snoc _ rfl).snoc _ rfl).trans (ih _ b h' hr)
    · simp only [Option.some.injEq, Prod.mk.injEq] at hr
      rw [← hr.2]
      exact (Continues.refl _ h).snoc _ rfl

/-- A completed blocking read appends exactly the read to the history. -/
theorem joybus_receive_byte_some (H : Hardware) (port : joybus_port_t) (h : List Op)
    (b : Nat) (h' : List Op) (hr : joybus_receive_byte H port h = some (b, h')) :
    ∃ w, H.pio_sm_get_blocking h port.pio port.sm = some w ∧ b = w % 256 ∧
      h' = h ++ [Op.get port.pio port.sm w] := by
  unfold joybus_receive_byte at hr
  split at hr
  · simp at hr
  · rename_i w hw
    simp only [Option.some.injEq, Prod.mk.injEq] at hr
    exact ⟨w, hw, hr.1.symm, hr.2.symm⟩

/-- The receive loop only appends receive-side calls to the history. -/
theorem receive_loop_trace (H : Hardware) (port : joybus_port_t) (len timeout_us : Nat) :
    ∀ (fuel bytes_received : Nat) (buf : Nat → Nat) (h : List Op) (r : Received),
      receive_loop H port len timeout_us fuel bytes_received buf h = some r →
      Continues Op.isReceiveSide h r.trace := by
  intro fuel
  induction fuel with
  | zero =>
    intro br buf h r hr
    simp only [receive_loop] at hr
    split at hr
    · simp at hr
    · simp only [Option.some.injEq] at hr
      rw [← hr]; exact Continues.refl _ h
  | succ fuel ih =>
    intro br buf h r hr
    simp only [receive_loop] at hr
    split at hr
    · split at hr
      · split at hr
        · simp at hr
        · rename_i h2 hw
          simp only [Option.some.injEq] at hr
          rw [← hr]
          exact ((Continues.refl _ h).snoc _ rfl).trans (wait_rx_trace H port _ _ _ _ _ hw)
        · rename_i h2 hw
          split at hr
          · simp at hr
          · rename_i b h3 hg
            obtain ⟨w, -, -, rfl⟩ := joybus_receive_byte_some H port _ _ _ hg
            exact ((((Continues.refl _ h).snoc _ rfl).trans
              (wait_rx_trace H port _ _ _ _ _ hw)).snoc (Op.get port.pio port.sm w) rfl).trans
              (ih _ _ _ r hr)
      · split at hr
        · simp at hr
        · rename_i b h3 hg
          obtain ⟨w, -, -, rfl⟩ := joybus_receive_byte_some H port _ _ _ hg
          exact ((Continues.refl _ h).snoc (Op.get port.pio port.sm w) rfl).trans
            (ih _ _ _ r hr)
    · simp only [Option.some.injEq] at hr
      rw [← hr]; exact Continues.refl _ h

/-- The receive loop, entered with a counter not above `len`, returns a
count not above `len`. -/
theorem receive_loop_count_le (H : Hardware) (port : joybus_port_t) (len timeout_us : Nat) :
    ∀ (fuel bytes_received : Nat) (buf : Nat → Nat) (h : List Op) (r : Received),
      bytes_received ≤ len →
      receive_loop H port len timeout_us fuel bytes_received buf h = some r →
      r.count ≤ len := by
  intro fuel
  induction fuel with
  | zero =>
    intro br buf h r hle hr
    simp only [receive_loop] at hr
    split at hr
    · simp at hr
    · simp only [Option.some.injEq] at hr
      rw [← hr]; exact hle
  | succ fuel ih =>
    intro br buf h r hle hr
    have hstep : (br + 1) % 256 ≤ br + 1 := Nat.mod_le _ _
    simp only [receive_loop] at hr
    split at hr
    · rename_i hlt
      split at hr
      · split at hr
        · simp at hr
        · simp only [Option.some.injEq] at hr
          rw [← hr]; exact hle
        · split at hr
          · simp at hr
          · exact ih _ _ _ r (by omega) hr
      · split at hr
        · simp at hr
        · exact ih _ _ _ r (by omega) hr
    · simp only [Option.some.injEq] at hr
      rw [← hr]; exact hle

/-- With a positive `len`, every count the receive loop returns is positive,
from whatever counter value the loop is entered. -/
theorem receive_loop_count_pos (H : Hardware) (port : joybus_port_t) (len timeout_us : Nat)
    (hlen : 0 < len) :
    ∀ (fuel bytes_received : Nat) (buf : Nat → Nat) (h : List Op) (r : Received),
      receive_loop H port len timeout_us fuel bytes_received buf h = some r →
      0 < r.count := by
  intro fuel
  induction fuel with
  | zero =>
    intro br buf h r hr
    simp only [receive_loop] at hr
    split at hr
    · simp at hr
    · simp only [Option.some.injEq] at hr
      rw [← hr]; show 0 < br; omega
  | succ fuel ih =>
    intro br buf h r hr
    simp only [receive_loop] at hr
    split at hr
    · split at hr
      · rename_i hpos
        split at hr
        · simp at hr
        · simp only [Option.some.injEq] at hr
          rw [← hr]; exact hpos
        · split at hr
          · simp at hr
          · exact ih _ _ _ r hr
      · split at hr
        · simp at hr
        · exact ih _ _ _ r hr
    · simp only [Option.some.injEq] at hr
      rw [← hr]; show 0 < br; omega


/-! ## Single passes through the receive loop -/

/-- The pass for the first slot: a blocking read and nothing else. -/
theorem receive_loop_first (H : Hardware) (port : joybus_port_t) (len timeout_us fuel : Nat)
    (buf : Nat → Nat) (h : List Op) (w : Nat) (hlen : 0 < len)
    (hw : H.pio_sm_get_blocking h port.pio port.sm = some w) :
    receive_loop H port len timeout_us (fuel + 1) 0 buf h =
      receive_loop H port len timeout_us fuel 1 (Function.update buf 0 (w % 256))
        (h ++ [Op.get port.pio port.sm w]) := by
  conv_lhs => rw [receive_loop]
  simp only [hlen, Nat.lt_irrefl, joybus_receive_byte, hw, if_true, if_false, Nat.zero_add,
    Nat.one_mod_eq_one.mpr (show (256 : Nat) ≠ 1 by decide)]

/-- A pass for a later slot whose byte is already in the queue at the first
poll: deadline, one poll, one read. -/
theorem receive_loop_next (H : Hardware) (port : joybus_port_t) (len timeout_us fuel : Nat)
    (bytes_received : Nat) (buf : Nat → Nat) (h : List Op) (w : Nat)
    (hpos : 0 < bytes_received) (hlt : bytes_received < len)
    (hready : H.pio_sm_is_rx_fifo_empty
      (h ++ [Op.make_timeout timeout_us (H.make_timeout_time_us h timeout_us)])
      port.pio port.sm = false)
    (hw : H.pio_sm_get_blocking
      (h ++ [Op.make_timeout timeout_us (H.make_timeout_time_us h timeout_us)] ++
        [Op.rx_fifo_empty port.pio port.sm false]) port.pio port.sm = some w) :
    receive_loop H port len timeout_us (fuel + 2) bytes_received buf h =
      receive_loop H port len timeout_us (fuel + 1) ((bytes_received + 1) % 256)
        (Function.update buf bytes_received (w % 256))
        (h ++ [Op.make_timeout timeout_us (H.make_timeout_time_us h timeout_us)] ++
          [Op.rx_fifo_empty port.pio port.sm false] ++ [Op.get port.pio port.sm w]) := by
  conv_lhs => rw [show fuel + 2 = (fuel + 1) + 1 from rfl, receive_loop]
  simp only [hlt, hpos, if_true, wait_rx, hready, joybus_receive_byte, hw, Bool.false_eq_true,
    if_false]

/-- A pass for a later slot whose deadline is found reached at the first
check with the queue empty: the loop returns the counter. -/
theorem receive_loop_timeout (H : Hardware) (port : joybus_port_t) (len timeout_us fuel : Nat)
    (bytes_received : Nat) (buf : Nat → Nat) (h : List Op)
    (hpos : 0 < bytes_received) (hlt : bytes_received < len)
    (hempty : H.pio_sm_is_rx_fifo_empty
      (h ++ [Op.make_timeout timeout_us (H.make_timeout_time_us h timeout_us)])
      port.pio port.sm = true)
    (hreached : H.time_reached
      (h ++ [Op.make_timeout timeout_us (H.make_timeout_time_us h timeout_us)] ++
        [Op.rx_fifo_empty port.pio port.sm true])
      (H.make_timeout_time_us h timeout_us) = true) :
    receive_loop H port len timeout_us (fuel + 2) bytes_received buf h =
      some ⟨bytes_received, buf,
        h ++ [Op.make_timeout timeout_us (H.make_timeout_time_us h timeout_us)] ++
          [Op.rx_fifo_empty port.pio port.sm true] ++
          [Op.time_reached (H.make_timeout_time_us h timeout_us) true]⟩ := by
  conv_lhs => rw [show fuel + 2 = (fuel + 1) + 1 from rfl, receive_loop]
  simp only [hlt, hpos, if_true, wait_rx, hempty, hreached]

/-! ## The scripted responder -/

theorem countGets_append (h s : List Op) : countGets (h ++ s) = countGets h + countGets s := by
  simp [countGets]

theorem countGets_singleton (e : Op) : countGets [e] = if e.isGet then 1 else 0 := by
  cases e <;> rfl

theorem wrapScript_length : wrapScript.length = 257 := by
  simp only [wrapScript, List.length_cons, List.length_append, List.length_replicate,
    List.length_singleton, List.length_nil]

theorem wrapScript_last : wrapScript.getD 256 0 = 0xEE := by
  decide

/-- With a requested length of 256 or more the `uint8_t` counter is always
below `len`: as long as the scripted responder has words left, `n` passes
consume `n` words and leave the counter at `(bytes_received + n) % 256`. -/
theorem scripted_run (words : List Nat) (port : joybus_port_t) (len timeout_us fuel : Nat)
    (hlen : 256 ≤ len) :
    ∀ (n bytes_received : Nat) (buf : Nat → Nat) (h : List Op),
      bytes_received < 256 → countGets h + n ≤ words.length →
      ∃ buf' s,
        receive_loop (scripted words) port len timeout_us (fuel + 1 + n) bytes_received buf h =
          receive_loop (scripted words) port len timeout_us (fuel + 1)
            ((bytes_received + n) % 256) buf' (h ++ s) ∧
        countGets (h ++ s) = countGets h + n := by
  intro n
  induction n with
  | zero =>
    intro br buf h hbr _
    exact ⟨buf, [], by simp [Nat.mod_eq_of_lt hbr], by simp⟩
  | succ n ih =>
    intro br buf h hbr hn
    rcases Nat.eq_zero_or_pos br with rfl | hpos
    · have hw : (scripted words).pio_sm_get_blocking h port.pio port.sm =
          some (words.getD (countGets h) 0) := by
        simp only [scripted]; rw [if_pos (by omega)]
      have hstep := receive_loop_first (scripted words) port len timeout_us (fuel + 1 + n)
        buf h _ (by omega) hw
      obtain ⟨buf', s, hrun, hcount⟩ := ih 1 _ (h ++ [Op.get port.pio port.sm
        (words.getD (countGets h) 0)]) (by omega)
        (by rw [countGets_append]
            simp only [countGets_singleton, Op.isGet, Bool.false_eq_true, if_true, if_false,
          decide_eq_false_iff_not, decide_eq_true_eq]; omega)
      refine ⟨buf', [Op.get port.pio port.sm (words.getD (countGets h) 0)] ++ s, ?_, ?_⟩
      · rw [show fuel + 1 + (n + 1) = fuel + 1 + n + 1 from rfl, hstep, hrun,
          List.append_assoc]
        congr 1; omega
      · rw [← List.append_assoc, hcount, countGets_append]
        simp only [countGets_singleton, Op.isGet, Bool.false_eq_true, if_true, if_false,
          decide_eq_false_iff_not, decide_eq_true_eq]; omega
    · have hready : (scripted words).pio_sm_is_rx_fifo_empty
          (h ++ [Op.make_timeout timeout_us
            ((scripted words).make_timeout_time_us h timeout_us)]) port.pio port.sm = false := by
        simp only [scripted, countGets_append]
        simp only [countGets_singleton, Op.isGet, Bool.false_eq_true, if_true, if_false,
          decide_eq_false_iff_not, decide_eq_true_eq]; omega
      have hw : (scripted words).pio_sm_get_blocking
          (h ++ [Op.make_timeout timeout_us
            ((scripted words).make_timeout_time_us h timeout_us)] ++
            [Op.rx_fifo_empty port.pio port.sm false]) port.pio port.sm =
          some (words.getD (countGets h) 0) := by
        simp only [scripted, countGets_append]
        simp only [countGets_singleton, Op.isGet, Bool.false_eq_true, if_false, Nat.add_zero]
        rw [if_pos (by omega)]
      have hstep := receive_loop_next (scripted words) port len timeout_us (fuel + n)
        br buf h _ hpos (by omega) hready hw
      obtain ⟨buf', s, hrun, hcount⟩ := ih ((br + 1) % 256) _
        (h ++ [Op.make_timeout timeout_us
            ((scripted words).make_timeout_time_us h timeout_us)] ++
            [Op.rx_fifo_empty port.pio port.sm false] ++
            [Op.get port.pio port.sm (words.getD (countGets h) 0)])
        (Nat.mod_lt _ (by decide))
        (by simp only [countGets_append]
            simp only [countGets_singleton, Op.isGet, Bool.false_eq_true, if_true, if_false,
          decide_eq_false_iff_not, decide_eq_true_eq]; omega)
      refine ⟨buf', [Op.make_timeout timeout_us
            ((scripted words).make_timeout_time_us h timeout_us)] ++
            [Op.rx_fifo_empty port.pio port.sm false] ++
            [Op.get port.pio port.sm (words.getD (countGets h) 0)] ++ s, ?_, ?_⟩
      · rw [show fuel + 1 + (n + 1) = fuel + n + 2 by omega, hstep,
          show fuel + n + 1 = fuel + 1 + n by omega, hrun]
        simp only [List.append_assoc]
        congr 1; omega
      · simp only [← List.append_assoc] at hcount ⊢
        rw [hcount]
        simp only [countGets_append]; simp only [countGets_singleton, Op.isGet, Bool.false_eq_true, if_true, if_false,
          decide_eq_false_iff_not, decide_eq_true_eq]; omega

/-- Once the scripted responder has no word left, a pass for a later slot
times out at its first check and returns the counter. -/
theorem scripted_timeout (words : List Nat) (port : joybus_port_t) (len timeout_us fuel : Nat)
    (bytes_received : Nat) (buf : Nat → Nat) (h : List Op)
    (hpos : 0 < bytes_received) (hlt : bytes_received < len)
    (hdone : words.length ≤ countGets h) :
    receive_loop (scripted words) port len timeout_us (fuel + 2) bytes_received buf h =
      some ⟨bytes_received, buf,
        h ++ [Op.make_timeout timeout_us ((scripted words).make_timeout_time_us h timeout_us)] ++
          [Op.rx_fifo_empty port.pio port.sm true] ++
          [Op.time_reached ((scripted words).make_timeout_time_us h timeout_us) true]⟩ := by
  apply receive_loop_timeout _ _ _ _ _ _ _ _ hpos hlt
  · simp only [scripted, countGets_append]
    simp only [countGets_singleton, Op.isGet, Bool.false_eq_true, if_true, if_false,
          decide_eq_false_iff_not, decide_eq_true_eq]; omega
  · rfl

/-- With a requested length of 256 or more and a responder that always has a
byte ready, the receive loop never returns. -/
theorem alwaysReady_loop (word : Nat) (port : joybus_port_t) (k timeout_us : Nat) :
    ∀ (fuel bytes_received : Nat) (buf : Nat → Nat) (h : List Op),
      bytes_received < 256 →
      receive_loop (alwaysReady word) port (256 + k) timeout_us fuel bytes_received buf h =
        none := by
  intro fuel
  induction fuel with
  | zero =>
    intro br buf h hbr
    have : br < 256 + k := by omega
    simp [receive_loop, this]
  | succ fuel ih =>
    intro br buf h hbr
    have hlt : br < 256 + k := by omega
    have hmod : (br + 1) % 256 < 256 := Nat.mod_lt _ (by decide)
    cases fuel with
    | zero =>
      rcases Nat.eq_zero_or_pos br with rfl | hpos
      · simp [receive_loop, joybus_receive_byte, alwaysReady, show 1 < 256 + k by omega]
      · simp [receive_loop, wait_rx, hlt, hpos]
    | succ fuel =>
      rcases Nat.eq_zero_or_pos br with rfl | hpos
      · have := ih 1 (Function.update buf 0 (word % 256))
          (h ++ [Op.get port.pio port.sm word]) (by decide)
        simpa [receive_loop, joybus_receive_byte, alwaysReady] using this
      · have := ih ((br + 1) % 256) (Function.update buf br (word % 256))
          (h ++ [Op.make_timeout timeout_us timeout_us] ++
            [Op.rx_fifo_empty port.pio port.sm false] ++ [Op.get port.pio port.sm word]) hmod
        rw [receive_loop]
        simpa [wait_rx, joybus_receive_byte, alwaysReady, hlt, hpos] using this


/-! ## The transmit path -/

/-- For a `uint8_t` byte the framed word is the plain sum: no bit is lost to
the 32-bit reduction and the two fields do not overlap. -/
theorem data_shifted_eq (byte : Nat) (stop : Bool) (hb : byte < 256) :
    data_shifted byte stop = byte * 2 ^ 24 + (if stop then 2 ^ 23 else 0) := by
  have h1 : byte <<< 24 = 2 ^ 24 * byte := by rw [Nat.shiftLeft_eq, Nat.mul_comm]
  have h2 : ((if stop then 1 else 0) <<< 23 : Nat) = if stop then 2 ^ 23 else 0 := by
    cases stop <;> simp
  have h3 : (if stop then 2 ^ 23 else 0 : Nat) < 2 ^ 24 := by
    cases stop <;> simp
  have h4 : 2 ^ 24 * byte < 2 ^ 32 := by omega
  unfold data_shifted
  rw [h1, h2, Nat.mod_eq_of_lt h4, Nat.mod_eq_of_lt (Nat.lt_trans h3 (by decide)),
    ← Nat.mul_add_lt_is_or h3, Nat.mod_eq_of_lt (by omega)]
  omega

/-- Bit 23 of the framed word is the stop flag, whatever the byte. -/
theorem data_shifted_testBit_23 (byte : Nat) (stop : Bool) :
    (data_shifted byte stop).testBit 23 = stop := by
  unfold data_shifted
  rw [Nat.testBit_mod_two_pow, Nat.testBit_or, Nat.testBit_mod_two_pow,
    Nat.testBit_mod_two_pow, Nat.testBit_shiftLeft, Nat.testBit_shiftLeft]
  cases stop <;> simp

/-- The transmit loop from counter `i`, for a length that fits the `int`
counter: one push per remaining index, the stop flag on index `len - 1`. -/
theorem send_loop_eq (port : joybus_port_t) (bytes : List Nat) (len : Nat)
    (hlen : len < 2 ^ 31) :
    ∀ (k i : Nat) (h : List Op), i + k = len →
      send_loop port bytes len i h =
        h ++ (List.range' i k).map (fun j =>
          Op.put port.pio port.sm (data_shifted (bytes.getD j 0) (decide (j + 1 = len)))) := by
  intro k
  induction k with
  | zero =>
    intro i h hk
    rw [send_loop, if_neg (by omega)]
    simp
  | succ k ih =>
    intro i h hk
    have hstop : decide (i % 2 ^ 32 = (len + 2 ^ 32 - 1) % 2 ^ 32) = decide (i + 1 = len) := by
      apply decide_eq_decide.mpr
      omega
    rw [send_loop, if_pos (by omega), ih (i + 1) _ (by omega), hstop, joybus_send_byte]
    simp [List.range'_succ]

/-- The transmit loop only appends TX pushes to the history, for every
length. -/
theorem send_loop_trace (port : joybus_port_t) (bytes : List Nat) (len : Nat) :
    ∀ (k i : Nat) (h : List Op), len - i = k →
      Continues Op.isPut h (send_loop port bytes len i h) := by
  intro k
  induction k with
  | zero =>
    intro i h hk
    rw [send_loop, if_neg (by omega)]
    exact Continues.refl _ h
  | succ k ih =>
    intro i h hk
    rw [send_loop, if_pos (by omega)]
    exact ((Continues.refl _ h).snoc (Op.put port.pio port.sm _) rfl).trans
      (ih (i + 1) _ (by omega))

/-- The history after `joybus_send_bytes` for a length that fits the `int`
counter: the transmit-mode configuration, then one push per byte in order,
the stop flag on the last. -/
theorem joybus_send_bytes_eq (port : joybus_port_t) (bytes : List Nat) (h : List Op)
    (hn : bytes.length < 2 ^ 31) :
    joybus_send_bytes port bytes bytes.length h =
      h ++ Op.send_init port.pio port.sm port.offset port.pin ::
        (List.range bytes.length).map (fun i =>
          Op.put port.pio port.sm
            (data_shifted (bytes.getD i 0) (decide (i + 1 = bytes.length)))) := by
  rw [joybus_send_bytes, send_loop_eq port bytes bytes.length hn bytes.length 0 _ (by omega),
    List.range_eq_range']
  simp

/-- For every length, `joybus_send_bytes` appends the transmit-mode
configuration and then TX pushes only. -/
theorem joybus_send_bytes_trace (port : joybus_port_t) (bytes : List Nat) (len : Nat)
    (h : List Op) :
    ∃ s, joybus_send_bytes port bytes len h =
        h ++ Op.send_init port.pio port.sm port.offset port.pin :: s ∧
      ∀ o ∈ s, o.isPut = true :=
  (send_loop_trace port bytes len (len - 0) 0 _ rfl).cons_left

/-- A receive-side call is neither a mode configuration nor a TX push. -/
theorem isReceiveSide_not_send (o : Op) (ho : o.isReceiveSide = true) :
    o.isSendInit = false ∧ o.isPut = false ∧ o.isReceiveInit = false := by
  cases o <;> simp [Op.isReceiveSide, Op.isSendInit, Op.isPut, Op.isReceiveInit] at ho ⊢

/-- A TX push is neither a queue read nor a queue poll. -/
theorem isPut_not_receive (o : Op) (ho : o.isPut = true) :
    o.isGet = false ∧ o.isPoll = false := by
  cases o <;> simp [Op.isPut, Op.isGet, Op.isPoll] at ho ⊢

/-- With a requested length of 0 the receive loop returns 0 at once, for
every fuel, leaving buffer and history as they are. -/
theorem joybus_receive_bytes_len_zero (H : Hardware) (port : joybus_port_t) (buf : Nat → Nat)
    (timeout_us fuel : Nat) (h : List Op) :
    joybus_receive_bytes H port buf 0 timeout_us fuel h = some ⟨0, buf, h⟩ := by
  cases fuel <;> simp [joybus_receive_bytes, receive_loop]

/-! ## Claims on the receive path -/

/-- C1: for every port, buffer, requested length, timeout and behaviour of the
peripheral and timer, whenever `joybus_receive_bytes` returns, the returned
count `c` satisfies `0 ≤ c ≤ len`. -/
theorem joybus_receive_bytes_count_bounds (H : Hardware) (port : joybus_port_t)
    (buf : Nat → Nat) (len timeout_us fuel : Nat) (h : List Op) (r : Received)
    (hr : joybus_receive_bytes H port buf len timeout_us fuel h = some r) :
    0 ≤ r.count ∧ r.count ≤ len :=
  ⟨Nat.zero_le _, receive_loop_count_le H port len timeout_us fuel 0 buf h r (Nat.zero_le _) hr⟩

/-- Witness for C1: a responder that delivers one byte of three and stops;
the call returns 1, within the bounds. -/
theorem joybus_receive_bytes_count_bounds_witness :
    joybus_receive_bytes (scripted [0x11]) port0 zeroBuf 3 500 10 [] =
        some ⟨1, Function.update zeroBuf 0 0x11,
          [Op.get 0 1 0x11, Op.make_timeout 500 500, Op.rx_fifo_empty 0 1 true,
            Op.time_reached 500 true]⟩ ∧
      (0 ≤ 1 ∧ 1 ≤ 3) :=
  ⟨rfl, joybus_receive_bytes_count_bounds (scripted [0x11]) port0 zeroBuf 3 500 10 []
    ⟨1, Function.update zeroBuf 0 0x11,
      [Op.get 0 1 0x11, Op.make_timeout 500 500, Op.rx_fifo_empty 0 1 true,
        Op.time_reached 500 true]⟩ rfl⟩

/-- C5: no timeout applies before the first byte.  For a requested length of at
least 1 and any timeout: while the first blocking read has not completed the
call does not return, whatever the timer answers; and every run that returns
has made that read as its first call to the peripheral (no deadline
computation, poll or deadline check before it) and returns a count of at
least 1. -/
theorem joybus_receive_bytes_first_read_unconditional (H : Hardware) (port : joybus_port_t)
    (buf : Nat → Nat) (len timeout_us : Nat) (h : List Op) (hlen : 1 ≤ len) :
    (H.pio_sm_get_blocking h port.pio port.sm = none →
      ∀ fuel, joybus_receive_bytes H port buf len timeout_us fuel h = none) ∧
    (∀ fuel r, joybus_receive_bytes H port buf len timeout_us fuel h = some r →
      1 ≤ r.count ∧
      ∃ w s, H.pio_sm_get_blocking h port.pio port.sm = some w ∧
        r.trace = h ++ Op.get port.pio port.sm w :: s ∧
        ∀ o ∈ s, o.isReceiveSide = true) := by
  constructor
  · intro hnone fuel
    cases fuel with
    | zero => simp [joybus_receive_bytes, receive_loop]; omega
    | succ fuel =>
      have h0 : 0 < len := hlen
      simp [joybus_receive_bytes, receive_loop, joybus_receive_byte, hnone, h0]
  · intro fuel r hr
    refine ⟨receive_loop_count_pos H port len timeout_us hlen fuel 0 buf h r hr, ?_⟩
    have h0 : 0 < len := hlen
    cases fuel with
    | zero => simp [joybus_receive_bytes, receive_loop, h0] at hr
    | succ fuel =>
      simp only [joybus_receive_bytes, receive_loop, h0, if_true, Nat.lt_irrefl, if_false] at hr
      split at hr
      · simp at hr
      · rename_i b h3 hg
        obtain ⟨w, hw, -, rfl⟩ := joybus_receive_byte_some H port _ _ _ hg
        obtain ⟨s, hs, hall⟩ := (receive_loop_trace H port len timeout_us _ _ _ _ r hr).cons_left
        exact ⟨w, s, hw, hs, hall⟩

/-- Witness for C5: one byte requested of three is delivered, every deadline is
found reached at its first check, and the call still returns 1 with the
blocking read first. -/
theorem joybus_receive_bytes_first_read_unconditional_witness :
    1 ≤ 3 ∧ 1 ≤ 1 ∧
      ∃ w s, (scripted [0x11]).pio_sm_get_blocking [] port0.pio port0.sm = some w ∧
        [Op.get 0 1 0x11, Op.make_timeout 500 500, Op.rx_fifo_empty 0 1 true,
            Op.time_reached 500 true] = [] ++ Op.get port0.pio port0.sm w :: s ∧
        ∀ o ∈ s, o.isReceiveSide = true :=
  ⟨by decide,
    (joybus_receive_bytes_first_read_unconditional (scripted [0x11]) port0 zeroBuf 3 500 []
      (by decide)).2 10
      ⟨1, Function.update zeroBuf 0 0x11,
        [Op.get 0 1 0x11, Op.make_timeout 500 500, Op.rx_fifo_empty 0 1 true,
          Op.time_reached 500 true]⟩ rfl⟩


/-- C2, the code at its failing input: requested length 300, a responder that
delivers the 257 bytes of `wrapScript` and then stops, timeout 500 us.  The
deadline of the wait for the next byte is reached with the RX queue empty
after 257 bytes have been read in the call, and the call returns 1, not 257:
the `uint8_t` counter wrapped at 256. -/
theorem joybus_receive_bytes_timeout_after_257_reads :
    ∃ r, joybus_receive_bytes (scripted wrapScript) port0 zeroBuf 300 500 1000 [] = some r ∧
      r.count = 1 ∧ countGets r.trace = 257 ∧
      ∃ s ts, r.trace =
        s ++ [Op.rx_fifo_empty port0.pio port0.sm true, Op.time_reached ts true] := by
  obtain ⟨buf', s, hrun, hcount⟩ := scripted_run wrapScript port0 300 500 742
    (by decide) 257 0 zeroBuf [] (by decide) (by rw [wrapScript_length]; decide)
  have hc : countGets ([] ++ s) = 257 := by rw [hcount]; rfl
  have hlast := scripted_timeout wrapScript port0 300 500 741 1 buf' ([] ++ s)
    (by decide) (by decide) (by rw [hc, wrapScript_length])
  have hrun' : receive_loop (scripted wrapScript) port0 300 500 1000 0 zeroBuf []
      = receive_loop (scripted wrapScript) port0 300 500 (741 + 2) 1 buf' ([] ++ s) := hrun
  refine ⟨_, hrun'.trans hlast, rfl, ?_, ?_⟩
  · simp only [countGets_append] at hc ⊢
    simp only [countGets_singleton, Op.isGet, Bool.false_eq_true, if_false]
    omega
  · exact ⟨[] ++ s ++ [Op.make_timeout 500
      ((scripted wrapScript).make_timeout_time_us ([] ++ s) 500)],
      (scripted wrapScript).make_timeout_time_us ([] ++ s) 500, by simp⟩

/-- C3, the code at its failing input: requested length 256 or more and a
responder that always has the next byte ready, so that no deadline ever
fires.  The call never returns, whatever the fuel: after 256 reads the
`uint8_t` counter is back at 0 and is still below `len`. -/
theorem joybus_receive_bytes_len_256_never_returns (word : Nat) (port : joybus_port_t)
    (buf : Nat → Nat) (k timeout_us fuel : Nat) (h : List Op) :
    joybus_receive_bytes (alwaysReady word) port buf (256 + k) timeout_us fuel h = none :=
  alwaysReady_loop word port k timeout_us fuel 0 buf h (by decide)

/-- C4, the code at its failing input: requested length 256, a responder that
delivers `0x11`, then 255 zero bytes, then `0xEE`, and then stops.  The call
returns 1 with `buf[0] = 0xEE`, the byte of the 257th read, while the first
byte read in the call was `0x11`. -/
theorem joybus_receive_bytes_slot_zero_overwritten :
    ∃ r, joybus_receive_bytes (scripted wrapScript) port0 zeroBuf 256 500 1000 [] = some r ∧
      r.count = 1 ∧ r.buf 0 = 0xEE ∧
      r.trace.head? = some (Op.get port0.pio port0.sm 0x11) := by
  have hw0 : (scripted wrapScript).pio_sm_get_blocking [] port0.pio port0.sm = some 0x11 := by
    simp only [scripted]
    rw [if_pos (by rw [wrapScript_length]; decide)]
    rfl
  have hfirst := receive_loop_first (scripted wrapScript) port0 256 500 999 zeroBuf [] 0x11
    (by decide) hw0
  obtain ⟨buf', s, hrun, hcount⟩ := scripted_run wrapScript port0 256 500 743 (by decide) 255 1
    (Function.update zeroBuf 0 (0x11 % 256)) ([] ++ [Op.get port0.pio port0.sm 0x11])
    (by decide) (by rw [wrapScript_length]; decide)
  have hc : countGets ([] ++ [Op.get port0.pio port0.sm 0x11] ++ s) = 256 := by
    rw [hcount]; rfl
  have hw : (scripted wrapScript).pio_sm_get_blocking
      ([] ++ [Op.get port0.pio port0.sm 0x11] ++ s) port0.pio port0.sm = some 0xEE := by
    simp only [scripted, hc]
    rw [if_pos (by rw [wrapScript_length]; decide), wrapScript_last]
  have hwrap := receive_loop_first (scripted wrapScript) port0 256 500 743 buf'
    ([] ++ [Op.get port0.pio port0.sm 0x11] ++ s) 0xEE (by decide) hw
  have hlast := scripted_timeout wrapScript port0 256 500 741 1
    (Function.update buf' 0 (0xEE % 256))
    ([] ++ [Op.get port0.pio port0.sm 0x11] ++ s ++ [Op.get port0.pio port0.sm 0xEE])
    (by decide) (by decide)
    (by rw [countGets_append, hc, wrapScript_length]; decide)
  have hrun' : receive_loop (scripted wrapScript) port0 256 500
      999 1 (Function.update zeroBuf 0 (0x11 % 256)) ([] ++ [Op.get port0.pio port0.sm 0x11])
      = receive_loop (scripted wrapScript) port0 256 500
          (743 + 1) 0 buf' ([] ++ [Op.get port0.pio port0.sm 0x11] ++ s) := hrun
  have hwrap' : receive_loop (scripted wrapScript) port0 256 500
      (743 + 1) 0 buf' ([] ++ [Op.get port0.pio port0.sm 0x11] ++ s)
      = receive_loop (scripted wrapScript) port0 256 500
          (741 + 2) 1 (Function.update buf' 0 (0xEE % 256))
          ([] ++ [Op.get port0.pio port0.sm 0x11] ++ s ++ [Op.get port0.pio port0.sm 0xEE]) :=
    hwrap
  refine ⟨_, hfirst.trans (hrun'.trans (hwrap'.trans hlast)), rfl, ?_, ?_⟩
  · show Function.update buf' 0 (0xEE % 256) 0 = 0xEE
    rw [Function.update_same]
  · simp


/-! ## Claims on the transmit path and on the transaction -/


/-- C6: for every byte sequence of length `n < 2^31`, `joybus_send_bytes` first
applies the transmit-mode configuration once and then pushes exactly `n`
words to the TX queue, the `i`-th being the framing of `bytes[i]`, with the
stop indicator (bit 23) set on the word at index `n - 1` and on no other. -/
theorem joybus_send_bytes_frames (port : joybus_port_t) (bytes : List Nat) (h : List Op)
    (hn : bytes.length < 2 ^ 31) :
    joybus_send_bytes port bytes bytes.length h =
        h ++ Op.send_init port.pio port.sm port.offset port.pin ::
          (List.range bytes.length).map (fun i =>
            Op.put port.pio port.sm
              (data_shifted (bytes.getD i 0) (decide (i + 1 = bytes.length)))) ∧
      ∀ i, i < bytes.length →
        ((data_shifted (bytes.getD i 0) (decide (i + 1 = bytes.length))).testBit 23 = true ↔
          i = bytes.length - 1) := by
  refine ⟨joybus_send_bytes_eq port bytes h hn, ?_⟩
  intro i hi
  rw [data_shifted_testBit_23, decide_eq_true_eq]
  omega

/-- Witness for C6: the three bytes `01 02 03` are pushed as `0x01000000`,
`0x02000000` and, stop-flagged, `0x03800000`. -/
theorem joybus_send_bytes_frames_witness :
    [0x01, 0x02, 0x03].length < 2 ^ 31 ∧
      joybus_send_bytes port0 [0x01, 0x02, 0x03] [0x01, 0x02, 0x03].length [] =
        [Op.send_init 0 1 7 2, Op.put 0 1 0x01000000, Op.put 0 1 0x02000000,
          Op.put 0 1 0x03800000] :=
  ⟨by decide, (joybus_send_bytes_frames port0 [0x01, 0x02, 0x03] [] (by decide)).1.trans rfl⟩

/-- C7: for every byte `b` in `0..255` and every stop flag `s`, the word
`joybus_send_byte` pushes to the TX queue is `b * 2^24 + (s ? 2^23 : 0)`
modulo `2^32`: bits 31..24 are the byte, bit 23 is the stop flag, bits 22..0
are zero. -/
theorem joybus_send_byte_word (port : joybus_port_t) (b : Nat) (s : Bool) (h : List Op)
    (hb : b < 256) :
    joybus_send_byte port b s h =
        h ++ [Op.put port.pio port.sm ((b * 2 ^ 24 + (if s then 2 ^ 23 else 0)) % 2 ^ 32)] ∧
      (b * 2 ^ 24 + (if s then 2 ^ 23 else 0)) % 2 ^ 32 / 2 ^ 24 = b ∧
      (b * 2 ^ 24 + (if s then 2 ^ 23 else 0)) % 2 ^ 32 / 2 ^ 23 % 2 = (if s then 1 else 0) ∧
      (b * 2 ^ 24 + (if s then 2 ^ 23 else 0)) % 2 ^ 32 % 2 ^ 23 = 0 := by
  refine ⟨?_, ?_, ?_, ?_⟩
  · rw [joybus_send_byte, data_shifted_eq b s hb, Nat.mod_eq_of_lt]
    cases s <;> simp <;> omega
  · cases s <;> simp <;> omega
  · cases s <;> simp <;> omega
  · cases s <;> simp <;> omega

/-- Witness for C7: the byte `0x03` with the stop flag is framed as
`0x03800000`. -/
theorem joybus_send_byte_word_witness :
    0x03 < 256 ∧
      joybus_send_byte port0 0x03 true [] = [Op.put 0 1 0x03800000] :=
  ⟨by decide, (joybus_send_byte_word port0 0x03 true [] (by decide)).1⟩

/-- C8: `joybus_send_receive` called with an empty message (`message_len = 0`)
applies the receive-mode configuration once, before its first receive-side
call, and its result is then the result of `joybus_receive_bytes`; a run that
returns has, after that configuration, made receive-side calls only: it never
applies the transmit-mode configuration, pushes no TX word and applies no
second receive-mode configuration. -/
theorem joybus_send_receive_empty_message (H : Hardware) (port : joybus_port_t)
    (message : List Nat) (response_buf : Nat → Nat) (response_len read_timeout_us fuel : Nat)
    (h : List Op) :
    joybus_send_receive H port message 0 response_buf response_len read_timeout_us fuel h =
        joybus_receive_bytes H port response_buf response_len read_timeout_us fuel
          (h ++ [Op.receive_init port.pio port.sm port.offset port.pin]) ∧
      ∀ r, joybus_send_receive H port message 0 response_buf response_len read_timeout_us
          fuel h = some r →
        ∃ s, r.trace = h ++ Op.receive_init port.pio port.sm port.offset port.pin :: s ∧
          ∀ o ∈ s, o.isReceiveSide = true ∧ o.isSendInit = false ∧ o.isPut = false ∧
            o.isReceiveInit = false := by
  have heq : joybus_send_receive H port message 0 response_buf response_len read_timeout_us
      fuel h = joybus_receive_bytes H port response_buf response_len read_timeout_us fuel
        (h ++ [Op.receive_init port.pio port.sm port.offset port.pin]) := by
    simp [joybus_send_receive, joybus_reset_receive]
  refine ⟨heq, ?_⟩
  intro r hr
  rw [heq] at hr
  obtain ⟨s, hs, hall⟩ :=
    (receive_loop_trace H port response_len read_timeout_us _ _ _ _ r hr).cons_left
  exact ⟨s, hs, fun o ho => ⟨hall o ho, isReceiveSide_not_send o (hall o ho)⟩⟩

/-- Witness for C8: a receive-only transaction of two bytes. -/
theorem joybus_send_receive_empty_message_witness :
    ∃ s, [Op.receive_init 0 1 7 2, Op.get 0 1 0xAA, Op.make_timeout 1000 1000,
          Op.rx_fifo_empty 0 1 false, Op.get 0 1 0xBB] =
        [] ++ Op.receive_init port0.pio port0.sm port0.offset port0.pin :: s ∧
      ∀ o ∈ s, o.isReceiveSide = true ∧ o.isSendInit = false ∧ o.isPut = false ∧
        o.isReceiveInit = false :=
  (joybus_send_receive_empty_message (scripted [0xAA, 0xBB]) port0 [] zeroBuf 2 1000 10 []).2
    ⟨2, Function.update (Function.update zeroBuf 0 0xAA) 1 0xBB,
      [Op.receive_init 0 1 7 2, Op.get 0 1 0xAA, Op.make_timeout 1000 1000,
        Op.rx_fifo_empty 0 1 false, Op.get 0 1 0xBB]⟩ rfl

/-- C9: for every non-empty message and every timeout, `joybus_send_receive`
with requested length 0 returns 0 and leaves the response buffer unchanged;
the calls it has made are those of `joybus_send_bytes`, the transmit-mode
configuration followed by TX pushes only: no RX-queue read, no queue-empty
poll. -/
theorem joybus_send_receive_zero_response (H : Hardware) (port : joybus_port_t)
    (message : List Nat) (message_len : Nat) (response_buf : Nat → Nat)
    (read_timeout_us fuel : Nat) (h : List Op) (hm : 0 < message_len) :
    ∃ s, joybus_send_receive H port message message_len response_buf 0 read_timeout_us fuel h =
        some ⟨0, response_buf,
          h ++ Op.send_init port.pio port.sm port.offset port.pin :: s⟩ ∧
      ∀ o ∈ s, o.isPut = true ∧ o.isGet = false ∧ o.isPoll = false := by
  obtain ⟨s, hs, hall⟩ := joybus_send_bytes_trace port message message_len h
  refine ⟨s, ?_, fun o ho => ⟨hall o ho, isPut_not_receive o (hall o ho)⟩⟩
  rw [joybus_send_receive, if_pos hm, joybus_receive_bytes_len_zero, hs]

/-- Witness for C9: the message `01 02 03` with no response expected. -/
theorem joybus_send_receive_zero_response_witness :
    0 < 3 ∧
      ∃ s, joybus_send_receive (scripted []) port0 [0x01, 0x02, 0x03] 3 zeroBuf 0 1000 0 [] =
          some ⟨0, zeroBuf, [] ++ Op.send_init port0.pio port0.sm port0.offset port0.pin :: s⟩ ∧
        ∀ o ∈ s, o.isPut = true ∧ o.isGet = false ∧ o.isPoll = false :=
  ⟨by decide,
    joybus_send_receive_zero_response (scripted []) port0 [0x01, 0x02, 0x03] 3 zeroBuf 1000 0 []
      (by decide)⟩

/-- C10: for every non-empty message of length `n < 2^31`, the result of
`joybus_send_receive` is the result of `joybus_receive_bytes` on the response
buffer, run after the transmit-mode configuration and all `n` TX pushes (the
last one stop-flagged) have been made; a run that returns has made
receive-side calls only after the pushes, so no receive-mode configuration
is applied and no push follows a poll or a read. -/
theorem joybus_send_receive_sends_first (H : Hardware) (port : joybus_port_t)
    (message : List Nat) (response_buf : Nat → Nat) (response_len read_timeout_us fuel : Nat)
    (h : List Op) (hpos : 0 < message.length) (hn : message.length < 2 ^ 31) :
    joybus_send_receive H port message message.length response_buf response_len
          read_timeout_us fuel h =
        joybus_receive_bytes H port response_buf response_len read_timeout_us fuel
          (h ++ Op.send_init port.pio port.sm port.offset port.pin ::
            (List.range message.length).map (fun i =>
              Op.put port.pio port.sm
                (data_shifted (message.getD i 0) (decide (i + 1 = message.length))))) ∧
      ((List.range message.length).map (fun i =>
          Op.put port.pio port.sm
            (data_shifted (message.getD i 0) (decide (i + 1 = message.length))))).getLast? =
        some (Op.put port.pio port.sm
          (data_shifted (message.getD (message.length - 1) 0) true)) ∧
      ∀ r, joybus_send_receive H port message message.length response_buf response_len
          read_timeout_us fuel h = some r →
        ∃ s, r.trace = h ++ Op.send_init port.pio port.sm port.offset port.pin ::
            ((List.range message.length).map (fun i =>
              Op.put port.pio port.sm
                (data_shifted (message.getD i 0) (decide (i + 1 = message.length)))) ++ s) ∧
          ∀ o ∈ s, o.isReceiveSide = true ∧ o.isSendInit = false ∧ o.isPut = false ∧
            o.isReceiveInit = false := by
  have heq : joybus_send_receive H port message message.length response_buf response_len
      read_timeout_us fuel h =
      joybus_receive_bytes H port response_buf response_len read_timeout_us fuel
        (h ++ Op.send_init port.pio port.sm port.offset port.pin ::
          (List.range message.length).map (fun i =>
            Op.put port.pio port.sm
              (data_shifted (message.getD i 0) (decide (i + 1 = message.length))))) := by
    rw [joybus_send_receive, if_pos hpos, joybus_send_bytes_eq port message h hn]
  refine ⟨heq, ?_, ?_⟩
  · obtain ⟨m, hm⟩ : ∃ m, message.length = m + 1 := ⟨message.length - 1, by omega⟩
    rw [hm]
    simp [List.range_succ]
  · intro r hr
    rw [heq] at hr
    obtain ⟨s, hs, hall⟩ := receive_loop_trace H port response_len read_timeout_us _ _ _ _ r hr
    refine ⟨s, ?_, fun o ho => ⟨hall o ho, isReceiveSide_not_send o (hall o ho)⟩⟩
    rw [hs, List.append_assoc, List.cons_append]

/-- Witness for C10: the round trip `01 02 03` answered by `AA BB`. -/
theorem joybus_send_receive_sends_first_witness :
    0 < [0x01, 0x02, 0x03].length ∧ [0x01, 0x02, 0x03].length < 2 ^ 31 ∧
      joybus_send_receive (scripted [0xAA, 0xBB]) port0 [0x01, 0x02, 0x03] 3 zeroBuf 2 1000 10 []
        = some ⟨2, Function.update (Function.update zeroBuf 0 0xAA) 1 0xBB,
            [Op.send_init 0 1 7 2, Op.put 0 1 0x01000000, Op.put 0 1 0x02000000,
              Op.put 0 1 0x03800000, Op.get 0 1 0xAA, Op.make_timeout 1000 1000,
              Op.rx_fifo_empty 0 1 false, Op.get 0 1 0xBB]⟩ :=
  ⟨by decide, by decide,
    (joybus_send_receive_sends_first (scripted [0xAA, 0xBB]) port0 [0x01, 0x02, 0x03] zeroBuf 2
      1000 10 [] (by decide) (by decide)).1.trans rfl⟩


/-! ## Buffer writes of the receive loop -/

/-- Every write of the receive loop is at an index below `len`, from whatever
counter value the loop is entered and for every number of passes. -/
theorem receive_writes_lt (H : Hardware) (port : joybus_port_t) (len timeout_us : Nat) :
    ∀ (fuel bytes_received : Nat) (h : List Op),
      ∀ i ∈ receive_writes H port len timeout_us fuel bytes_received h, i < len := by
  intro fuel
  induction fuel with
  | zero => intro br h i hi; simp [receive_writes] at hi
  | succ fuel ih =>
    intro br h i hi
    simp only [receive_writes] at hi
    split at hi
    · rename_i hlt
      split at hi
      · split at hi
        · simp at hi
        · simp at hi
        · split at hi
          · simp at hi
          · rcases List.mem_cons.mp hi with rfl | hi
            · exact hlt
            · exact ih _ _ i hi
      · split at hi
        · simp at hi
        · rcases List.mem_cons.mp hi with rfl | hi
          · exact hlt
          · exact ih _ _ i hi
    · simp at hi

/-- The buffer a returning receive loop hands back differs from the buffer it
was entered with at written indices only. -/
theorem receive_loop_buf_frame (H : Hardware) (port : joybus_port_t) (len timeout_us : Nat) :
    ∀ (fuel bytes_received : Nat) (buf : Nat → Nat) (h : List Op) (r : Received),
      receive_loop H port len timeout_us fuel bytes_received buf h = some r →
      ∀ i, i ∉ receive_writes H port len timeout_us fuel bytes_received h → r.buf i = buf i := by
  intro fuel
  induction fuel with
  | zero =>
    intro br buf h r hr i _
    simp only [receive_loop] at hr
    split at hr
    · simp at hr
    · simp only [Option.some.injEq] at hr
      rw [← hr]
  | succ fuel ih =>
    intro br buf h r hr i hi
    simp only [receive_loop] at hr
    simp only [receive_writes] at hi
    split at hr
    · rename_i hlt
      rw [if_pos hlt] at hi
      split at hr
      · rename_i hpos
        rw [if_pos hpos] at hi
        split at hr
        · simp at hr
        · simp only [Option.some.injEq] at hr
          rw [← hr]
        · rename_i h2 hw
          simp only [hw] at hi
          split at hr
          · simp at hr
          · rename_i b h3 hg
            simp only [hg, List.mem_cons, not_or] at hi
            rw [ih _ _ _ r hr i hi.2, Function.update_noteq hi.1]
      · rename_i hpos
        rw [if_neg hpos] at hi
        split at hr
        · simp at hr
        · rename_i b h3 hg
          simp only [hg, List.mem_cons, not_or] at hi
          rw [ih _ _ _ r hr i hi.2, Function.update_noteq hi.1]
    · simp only [Option.some.injEq] at hr
      rw [← hr]


/-! ## The bit-level receive loop -/

/-- The polling loop leaves with the queue non-empty after polls and
unreached deadline checks only, or returns at the first reached deadline,
found with the queue empty. -/
theorem wait_rx_shape (H : Hardware) (port : joybus_port_t) (ts : Nat) :
    ∀ (fuel : Nat) (h : List Op) (b : Bool) (h' : List Op),
      wait_rx H port ts fuel h = some (b, h') →
      ∃ q, (∀ o ∈ q, o.isIdleWait = true) ∧
        h' = h ++ q ++
          (if b then [] else [Op.rx_fifo_empty port.pio port.sm true, Op.time_reached ts true]) := by
  intro fuel
  induction fuel with
  | zero => intro h b h' hr; simp [wait_rx] at hr
  | succ fuel ih =>
    intro h b h' hr
    simp only [wait_rx] at hr
    split at hr
    · rename_i he
      rw [he] at hr
      split at hr
      · rename_i hreached
        rw [hreached] at hr
        simp only [Option.some.injEq, Prod.mk.injEq] at hr
        refine ⟨[], by simp, ?_⟩
        rw [← hr.1, ← hr.2]
        simp
      · rename_i hreached
        have hfalse : H.time_reached (h ++ [Op.rx_fifo_empty port.pio port.sm true]) ts = false := by
          simpa using hreached
        rw [hfalse] at hr
        obtain ⟨q, hq, hh⟩ := ih _ b h' hr
        refine ⟨Op.rx_fifo_empty port.pio port.sm true :: Op.time_reached ts false :: q, ?_, ?_⟩
        · intro o ho
          simp only [List.mem_cons] at ho
          rcases ho with rfl | rfl | ho
          · rfl
          · rfl
          · exact hq o ho
        · rw [hh]; simp
    · rename_i he
      have hfalse : H.pio_sm_is_rx_fifo_empty h port.pio port.sm = false := by simpa using he
      rw [hfalse] at hr
      simp only [Option.some.injEq, Prod.mk.injEq] at hr
      refine ⟨[Op.rx_fifo_empty port.pio port.sm false], ?_, ?_⟩
      · intro o ho
        rw [List.mem_singleton.mp ho]; rfl
      · rw [← hr.1, ← hr.2]; simp

/-- One step of the accumulator: below bit 8, with the accumulator holding
bits `0 .. bits_received - 1`, the update adds the low bit of the word read at
position `bits_received`, and the `uint8_t` reduction changes nothing. -/
theorem received_byte_step (received_byte bits_received w : Nat)
    (hrb : received_byte < 2 ^ bits_received) (hbits : bits_received < 8) :
    (received_byte ||| (if decide (w % 2 ^ 32 &&& 1 ≠ 0) then 1 else 0) <<< bits_received) % 256
      = received_byte + 2 ^ bits_received * (w % 2) := by
  have hbit : (if decide (w % 2 ^ 32 &&& 1 ≠ 0) then 1 else 0 : Nat) = w % 2 := by
    rw [Nat.and_one_is_mod]
    have h2 : w % 2 ^ 32 % 2 = w % 2 := by omega
    rw [h2]
    rcases Nat.mod_two_eq_zero_or_one w with h0 | h1
    · simp [h0]
    · simp [h1]
  have hpow : 2 ^ bits_received ≤ 2 ^ 7 := Nat.pow_le_pow_right (by decide) (by omega)
  have hw : w % 2 < 2 := Nat.mod_lt _ (by decide)
  have hle : 2 ^ bits_received * (w % 2) ≤ 2 ^ bits_received := by
    rcases Nat.mod_two_eq_zero_or_one w with h0 | h1
    · simp [h0]
    · simp [h1]
  rw [hbit, Nat.shiftLeft_eq, Nat.mul_comm (w % 2), Nat.or_comm,
    ← Nat.mul_add_lt_is_or hrb, Nat.mod_eq_of_lt (by omega), Nat.add_comm]

theorem getWords_append (a b : List Op) : getWords (a ++ b) = getWords a ++ getWords b := by
  induction a with
  | nil => rfl
  | cons o a ih => cases o <;> simp [getWords, ih]

theorem getWords_idle (q : List Op) (hq : ∀ o ∈ q, o.isIdleWait = true) : getWords q = [] := by
  induction q with
  | nil => rfl
  | cons o q ih =>
    have ho := hq o (List.mem_cons_self _ _)
    have hq' := ih (fun o' ho' => hq o' (List.mem_cons_of_mem _ ho'))
    cases o <;> simp [getWords, hq', Op.isIdleWait] at ho ⊢

/-- The words read in a run of completed passes are the words of the passes. -/
theorem getWords_timedReads (port : joybus_port_t) (timeout_us : Nat) :
    ∀ (passes : List (Nat × List Op × Nat)),
      (∀ p ∈ passes, ∀ o ∈ p.2.1, o.isIdleWait = true) →
      getWords (timedReads port timeout_us passes) = passes.map (fun p => p.2.2) := by
  intro passes
  induction passes with
  | nil => intro _; rfl
  | cons p ps ih =>
    intro hq
    have hp := getWords_idle p.2.1 (hq p (List.mem_cons_self _ _))
    have hps := ih (fun p' hp' => hq p' (List.mem_cons_of_mem _ hp'))
    simp [timedReads, timedRead, getWords_append, getWords, hp, hps]

/-- The bit loop entered at a bit after the first: it completes the
remaining passes and hands back the assembled byte, or stops at the first
pass whose deadline is reached with the queue empty and leaves `*byte`. -/
theorem receive_bits_loop_spec (H : Hardware) (port : joybus_port_t) (timeout_us byte : Nat) :
    ∀ (fuel bits_received received_byte : Nat) (h : List Op) (r : ReceivedByte),
      1 ≤ bits_received → bits_received ≤ 8 → received_byte < 2 ^ bits_received →
      receive_bits_loop H port timeout_us byte fuel bits_received received_byte h = some r →
      ∃ passes : List (Nat × List Op × Nat),
        (∀ p ∈ passes, ∀ o ∈ p.2.1, o.isIdleWait = true) ∧
        ((r.ok = true ∧ passes.length = 8 - bits_received ∧
            r.trace = h ++ timedReads port timeout_us passes ∧
            r.byte = received_byte +
              2 ^ bits_received * lsbValue (passes.map (fun p => p.2.2))) ∨
          (r.ok = false ∧ r.byte = byte ∧ passes.length < 8 - bits_received ∧
            ∃ ts q, (∀ o ∈ q, o.isIdleWait = true) ∧
              r.trace = h ++ timedReads port timeout_us passes ++
                (Op.make_timeout timeout_us ts ::
                  (q ++ [Op.rx_fifo_empty port.pio port.sm true, Op.time_reached ts true])))) := by
  intro fuel
  induction fuel with
  | zero =>
    intro bits rb h r _ hle _ hr
    simp only [receive_bits_loop] at hr
    split at hr
    · simp at hr
    · simp only [Option.some.injEq] at hr
      have h8 : bits = 8 := by omega
      refine ⟨[], by simp, Or.inl ?_⟩
      rw [← hr]
      simp [h8, timedReads, lsbValue]
  | succ fuel ih =>
    intro bits rb h r hpos hle hrb hr
    simp only [receive_bits_loop] at hr
    split at hr
    · rename_i hlt
      rw [if_pos (by omega)] at hr
      split at hr
      · simp at hr
      · rename_i h2 hw
        simp only [Option.some.injEq] at hr
        obtain ⟨q, hq, hh⟩ := wait_rx_shape H port _ _ _ _ _ hw
        refine ⟨[], by simp, Or.inr ?_⟩
        rw [← hr]
        refine ⟨rfl, rfl, by simp; omega, H.make_timeout_time_us h timeout_us, q, hq, ?_⟩
        rw [hh]
        simp [timedReads]
      · rename_i h2 hw
        obtain ⟨q, hq, hh⟩ := wait_rx_shape H port _ _ _ _ _ hw
        split at hr
        · simp at hr
        · rename_i w hg
          rw [received_byte_step rb bits w hrb hlt] at hr
          have hrb' : rb + 2 ^ bits * (w % 2) < 2 ^ (bits + 1) := by
            have : w % 2 < 2 := Nat.mod_lt _ (by decide)
            have hle2 : 2 ^ bits * (w % 2) ≤ 2 ^ bits := by
              rcases Nat.mod_two_eq_zero_or_one w with h0 | h1
              · simp [h0]
              · simp [h1]
            rw [Nat.pow_succ]; omega
          obtain ⟨passes, hidle, hcase⟩ := ih _ _ _ r (by omega) (by omega) hrb' hr
          refine ⟨(H.make_timeout_time_us h timeout_us, q, w) :: passes, ?_, ?_⟩
          · intro p hp o ho
            rcases List.mem_cons.mp hp with rfl | hp
            · exact hq o ho
            · exact hidle p hp o ho
          · rcases hcase with ⟨hok, hlen, htrace, hbyte⟩ | ⟨hok, hbyte, hlen, ts, q', hq', htrace⟩
            · refine Or.inl ⟨hok, by simp [hlen]; omega, ?_, ?_⟩
              · rw [htrace, hh]; simp [timedReads, timedRead]
              · rw [hbyte]; simp only [List.map_cons, lsbValue, Nat.pow_succ]; ring
            · refine Or.inr ⟨hok, hbyte, by simp; omega, ts, q', hq', ?_⟩
              rw [htrace, hh]; simp [timedReads, timedRead]
    · simp only [Option.some.injEq] at hr
      have h8 : bits = 8 := by omega
      refine ⟨[], by simp, Or.inl ?_⟩
      rw [← hr]
      simp [h8, timedReads, lsbValue]

/-- The whole call: the first read is unconditional, then the bit loop runs
from bit 1. -/
theorem joybus_receive_byte_timeout_spec (H : Hardware) (port : joybus_port_t)
    (byte timeout_us fuel : Nat) (h : List Op) (r : ReceivedByte)
    (hr : joybus_receive_byte_timeout H port byte timeout_us fuel h = some r) :
    ∃ (w0 : Nat) (passes : List (Nat × List Op × Nat)),
      (∀ p ∈ passes, ∀ o ∈ p.2.1, o.isIdleWait = true) ∧
      ((r.ok = true ∧ passes.length = 7 ∧
          r.trace = h ++ Op.get port.pio port.sm w0 :: timedReads port timeout_us passes ∧
          r.byte = lsbValue (w0 :: passes.map (fun p => p.2.2))) ∨
        (r.ok = false ∧ r.byte = byte ∧ passes.length < 7 ∧
          ∃ ts q, (∀ o ∈ q, o.isIdleWait = true) ∧
            r.trace = h ++ Op.get port.pio port.sm w0 :: (timedReads port timeout_us passes ++
              (Op.make_timeout timeout_us ts ::
                (q ++ [Op.rx_fifo_empty port.pio port.sm true, Op.time_reached ts true]))))) := by
  cases fuel with
  | zero => simp [joybus_receive_byte_timeout, receive_bits_loop] at hr
  | succ fuel =>
    simp only [joybus_receive_byte_timeout, receive_bits_loop, Nat.lt_irrefl, if_false,
      show (0 : Nat) < 8 by decide, if_true] at hr
    split at hr
    · simp at hr
    · rename_i w hg
      rw [received_byte_step 0 0 w (by decide) (by decide)] at hr
      have hw : w % 2 < 2 := Nat.mod_lt _ (by decide)
      obtain ⟨passes, hidle, hcase⟩ := receive_bits_loop_spec H port timeout_us byte fuel 1 _ _ r
        (by decide) (by decide) (by simp; omega) hr
      refine ⟨w, passes, hidle, ?_⟩
      rcases hcase with ⟨hok, hlen, htrace, hbyte⟩ | ⟨hok, hbyte, hlen, ts, q, hq, htrace⟩
      · refine Or.inl ⟨hok, hlen, ?_, ?_⟩
        · rw [htrace]; simp
        · rw [hbyte]; simp [lsbValue]
      · refine Or.inr ⟨hok, hbyte, hlen, ts, q, hq, ?_⟩
        rw [htrace]; simp


theorem list_length_seven {α : Type} (l : List α) (hl : l.length = 7) :
    ∃ a b c d e f g, l = [a, b, c, d, e, f, g] := by
  rcases l with _ | ⟨a, _ | ⟨b, _ | ⟨c, _ | ⟨d, _ | ⟨e, _ | ⟨f, _ | ⟨g, _ | ⟨x, l⟩⟩⟩⟩⟩⟩⟩⟩
  all_goals first
    | exact ⟨a, b, c, d, e, f, g, rfl⟩
    | (exfalso; simp only [List.length_cons, List.length_nil] at hl; omega)

/-- A first read followed by completed passes ends with a read. -/
theorem timedReads_ends_with_get (port : joybus_port_t) (timeout_us : Nat) :
    ∀ (passes : List (Nat × List Op × Nat)) (w0 : Nat),
      ∃ init w, Op.get port.pio port.sm w0 :: timedReads port timeout_us passes =
        init ++ [Op.get port.pio port.sm w] := by
  intro passes
  induction passes with
  | nil => intro w0; exact ⟨[], w0, rfl⟩
  | cons p ps ih =>
    intro w0
    obtain ⟨init, w, hw⟩ := ih p.2.2
    refine ⟨Op.get port.pio port.sm w0 :: Op.make_timeout timeout_us p.1 :: (p.2.1 ++ init), w, ?_⟩
    show Op.get port.pio port.sm w0 ::
        (timedRead port timeout_us p ++ timedReads port timeout_us ps) = _
    simp only [timedRead, List.cons_append, List.append_assoc, List.nil_append]
    rw [hw]


/-! ## Claims on initialisation, buffer bounds and framing -/

/-- C11, the code at its failing input: the claim of an unused state machine
reports none free (`pio_claim_unused_sm` answers `-1`).  The `-1` is stored
in the `uint sm`, so the test `sm < 0` is false: `joybus_port_init(port,
pin, pio)` returns 0, loads the program and configures state machine
`4294967295` for receive. -/
theorem joybus_port_init_claim_failure_ignored (port : joybus_port_t)
    (pin pio offset : Nat) :
    joybus_port_init3 (noFreeSm offset) port pin pio [] =
      ⟨0, ⟨pin, pio, 4294967295, offset⟩,
        [SetupOp.claim_unused_sm pio false (-1), SetupOp.add_program pio offset,
          SetupOp.service (Op.receive_init pio 4294967295 offset pin)]⟩ := by
  rfl

/-- C12: for every pin, engine, state machine and program offset,
`joybus_port_init(port, pin, pio, sm, offset)` returns 0, leaves the port with
`pin`, `pio`, `sm` and `offset` equal to the arguments, and applies the
receive-mode configuration exactly once, with those four values;
`joybus_reset_receive` on that port applies the same configuration again
from the stored values.  `joybus_reset_receive` only reads `*port`: it takes
the port and yields the history alone. -/
theorem joybus_port_init_receive_mode (port : joybus_port_t) (pin pio sm offset : Nat)
    (h : List Op) :
    (joybus_port_init5 port pin pio sm offset h).result = 0 ∧
      (joybus_port_init5 port pin pio sm offset h).port = ⟨pin, pio, sm, offset⟩ ∧
      (joybus_port_init5 port pin pio sm offset h).trace =
        h ++ [Op.receive_init pio sm offset pin] ∧
      (∀ (p : joybus_port_t) (k : List Op),
        joybus_reset_receive p k = k ++ [Op.receive_init p.pio p.sm p.offset p.pin]) ∧
      joybus_reset_receive (joybus_port_init5 port pin pio sm offset h).port
          (joybus_port_init5 port pin pio sm offset h).trace =
        h ++ [Op.receive_init pio sm offset pin, Op.receive_init pio sm offset pin] := by
  refine ⟨rfl, rfl, rfl, fun _ _ => rfl, ?_⟩
  simp [joybus_reset_receive, joybus_port_init5]

/-- C15: for every requested length and every behaviour of the peripheral,
every buffer write of `joybus_receive_bytes`, in any number of passes of its
loop, is at an index below `len`; a run that returns has changed the buffer
at written indices only, so slots at index `len` and above are unchanged. -/
theorem joybus_receive_bytes_writes_below_len (H : Hardware) (port : joybus_port_t)
    (buf : Nat → Nat) (len timeout_us : Nat) (h : List Op) :
    (∀ fuel, ∀ i ∈ receive_writes H port len timeout_us fuel 0 h, i < len) ∧
      ∀ fuel r, joybus_receive_bytes H port buf len timeout_us fuel h = some r →
        (∀ i, i ∉ receive_writes H port len timeout_us fuel 0 h → r.buf i = buf i) ∧
        ∀ i, len ≤ i → r.buf i = buf i := by
  refine ⟨fun fuel => receive_writes_lt H port len timeout_us fuel 0 h, ?_⟩
  intro fuel r hr
  have hframe := receive_loop_buf_frame H port len timeout_us fuel 0 buf h r hr
  refine ⟨hframe, fun i hi => hframe i ?_⟩
  intro hmem
  have := receive_writes_lt H port len timeout_us fuel 0 h i hmem
  omega

/-- Witness for C15: a responder that delivers one byte of three and stops;
the call returns with slot 5 as the caller left it. -/
theorem joybus_receive_bytes_writes_below_len_witness :
    (Function.update zeroBuf 0 0x11) 5 = zeroBuf 5 :=
  ((joybus_receive_bytes_writes_below_len (scripted [0x11]) port0 zeroBuf 3 500 []).2 10
    ⟨1, Function.update zeroBuf 0 0x11,
      [Op.get 0 1 0x11, Op.make_timeout 500 500, Op.rx_fifo_empty 0 1 true,
        Op.time_reached 500 true]⟩ rfl).2 5 (by decide)

/-- C16: the transmit framing is losslessly decodable.  For every byte `b` in
`0..255` and stop flag `s`, with `w` the word `joybus_send_byte` pushes,
`w >> 24 = b` and `(w >> 23) & 1 = (s ? 1 : 0)`; hence two framings are equal
only for equal bytes and equal stop flags. -/
theorem joybus_send_byte_decodable (port : joybus_port_t) (b : Nat) (s : Bool) (h : List Op)
    (hb : b < 256) :
    joybus_send_byte port b s h = h ++ [Op.put port.pio port.sm (data_shifted b s)] ∧
      data_shifted b s >>> 24 = b ∧
      data_shifted b s >>> 23 &&& 1 = (if s then 1 else 0) ∧
      ∀ (b' : Nat) (s' : Bool), b' < 256 → data_shifted b s = data_shifted b' s' →
        b = b' ∧ s = s' := by
  refine ⟨rfl, ?_, ?_, ?_⟩
  · rw [data_shifted_eq b s hb, Nat.shiftRight_eq_div_pow]
    cases s <;> simp
    all_goals omega
  · rw [data_shifted_eq b s hb, Nat.shiftRight_eq_div_pow, Nat.and_one_is_mod]
    cases s <;> simp <;> omega
  · intro b' s' hb' heq
    rw [data_shifted_eq b s hb, data_shifted_eq b' s' hb'] at heq
    cases s <;> cases s' <;> simp at heq ⊢ <;> omega

/-- Witness for C16: the word `0x03800000` decodes to the byte `0x03` with the
stop flag set. -/
theorem joybus_send_byte_decodable_witness :
    0x03 < 256 ∧ data_shifted 0x03 true >>> 24 = 0x03 ∧
      data_shifted 0x03 true >>> 23 &&& 1 = 1 :=
  ⟨by decide, (joybus_send_byte_decodable port0 0x03 true [] (by decide)).2.1,
    (joybus_send_byte_decodable port0 0x03 true [] (by decide)).2.2.1⟩


/-! ## Claims on the bit-level receive -/

/-- C13: when `joybus_receive_byte_timeout` succeeds (returns true) it has read
exactly 8 words `w0 .. w7` from the RX queue and stores in `*byte` the sum of
`(wi mod 2) * 2^i`: the least significant bit of each read, assembled least
significant bit first. -/
theorem joybus_receive_byte_timeout_assembles (H : Hardware) (port : joybus_port_t)
    (byte timeout_us fuel : Nat) (h : List Op) (r : ReceivedByte)
    (hr : joybus_receive_byte_timeout H port byte timeout_us fuel h = some r)
    (hok : r.ok = true) :
    ∃ w0 w1 w2 w3 w4 w5 w6 w7 s, r.trace = h ++ s ∧
      getWords s = [w0, w1, w2, w3, w4, w5, w6, w7] ∧
      r.byte = w0 % 2 * 2 ^ 0 + w1 % 2 * 2 ^ 1 + w2 % 2 * 2 ^ 2 + w3 % 2 * 2 ^ 3 +
        w4 % 2 * 2 ^ 4 + w5 % 2 * 2 ^ 5 + w6 % 2 * 2 ^ 6 + w7 % 2 * 2 ^ 7 := by
  obtain ⟨w0, passes, hidle, hcase⟩ :=
    joybus_receive_byte_timeout_spec H port byte timeout_us fuel h r hr
  rcases hcase with ⟨-, hlen, htrace, hbyte⟩ | ⟨hfalse, -⟩
  · have hwords := getWords_timedReads port timeout_us passes hidle
    obtain ⟨p1, p2, p3, p4, p5, p6, p7, rfl⟩ := list_length_seven passes hlen
    refine ⟨w0, p1.2.2, p2.2.2, p3.2.2, p4.2.2, p5.2.2, p6.2.2, p7.2.2,
      Op.get port.pio port.sm w0 :: timedReads port timeout_us [p1, p2, p3, p4, p5, p6, p7],
      htrace, ?_, ?_⟩
    · rw [show getWords (Op.get port.pio port.sm w0 ::
          timedReads port timeout_us [p1, p2, p3, p4, p5, p6, p7]) =
          w0 :: getWords (timedReads port timeout_us [p1, p2, p3, p4, p5, p6, p7]) from rfl,
        hwords]
      rfl
    · rw [hbyte]
      simp only [List.map_cons, List.map_nil, lsbValue]
      omega
  · rw [hok] at hfalse
    exact absurd hfalse (by decide)

/-- Witness for C13: the queue delivers the bits `1 0 1 1 0 0 1 0`; the call
succeeds with `*byte = 0x4D`. -/
theorem joybus_receive_byte_timeout_assembles_witness :
    ∃ w0 w1 w2 w3 w4 w5 w6 w7 s,
      [Op.get 0 1 1,
        Op.make_timeout 500 500, Op.rx_fifo_empty 0 1 false, Op.get 0 1 0,
        Op.make_timeout 500 500, Op.rx_fifo_empty 0 1 false, Op.get 0 1 1,
        Op.make_timeout 500 500, Op.rx_fifo_empty 0 1 false, Op.get 0 1 1,
        Op.make_timeout 500 500, Op.rx_fifo_empty 0 1 false, Op.get 0 1 0,
        Op.make_timeout 500 500, Op.rx_fifo_empty 0 1 false, Op.get 0 1 0,
        Op.make_timeout 500 500, Op.rx_fifo_empty 0 1 false, Op.get 0 1 1,
        Op.make_timeout 500 500, Op.rx_fifo_empty 0 1 false, Op.get 0 1 0] = [] ++ s ∧
      getWords s = [w0, w1, w2, w3, w4, w5, w6, w7] ∧
      0x4D = w0 % 2 * 2 ^ 0 + w1 % 2 * 2 ^ 1 + w2 % 2 * 2 ^ 2 + w3 % 2 * 2 ^ 3 +
        w4 % 2 * 2 ^ 4 + w5 % 2 * 2 ^ 5 + w6 % 2 * 2 ^ 6 + w7 % 2 * 2 ^ 7 :=
  joybus_receive_byte_timeout_assembles (scripted [1, 0, 1, 1, 0, 0, 1, 0]) port0 0x99 500 20 []
    ⟨true, 0x4D,
      [Op.get 0 1 1,
        Op.make_timeout 500 500, Op.rx_fifo_empty 0 1 false, Op.get 0 1 0,
        Op.make_timeout 500 500, Op.rx_fifo_empty 0 1 false, Op.get 0 1 1,
        Op.make_timeout 500 500, Op.rx_fifo_empty 0 1 false, Op.get 0 1 1,
        Op.make_timeout 500 500, Op.rx_fifo_empty 0 1 false, Op.get 0 1 0,
        Op.make_timeout 500 500, Op.rx_fifo_empty 0 1 false, Op.get 0 1 0,
        Op.make_timeout 500 500, Op.rx_fifo_empty 0 1 false, Op.get 0 1 1,
        Op.make_timeout 500 500, Op.rx_fifo_empty 0 1 false, Op.get 0 1 0]⟩ rfl rfl

/-- C14: `joybus_receive_byte_timeout` applies no timeout before the first bit
and a fresh deadline before each of bits 1..7.  Every run that returns starts
with the unconditional read of bit 0, followed by completed passes, each a
deadline, then polls and unreached deadline checks, then the read.  It
returns true after 7 such passes, with no deadline found reached; it returns
false exactly when the pass for a bit `k` in `1..7` (here `k` is
`passes.length + 1`) finds its own deadline reached with the RX queue
empty: that check is the last call made, so no further queue read follows,
and `*byte` is left as the caller had it. -/
theorem joybus_receive_byte_timeout_policy (H : Hardware) (port : joybus_port_t)
    (byte timeout_us fuel : Nat) (h : List Op) (r : ReceivedByte)
    (hr : joybus_receive_byte_timeout H port byte timeout_us fuel h = some r) :
    (∃ (w0 : Nat) (passes : List (Nat × List Op × Nat)),
      (∀ p ∈ passes, ∀ o ∈ p.2.1, o.isIdleWait = true) ∧
      ((r.ok = true ∧ passes.length = 7 ∧
          r.trace = h ++ Op.get port.pio port.sm w0 :: timedReads port timeout_us passes) ∨
        (r.ok = false ∧ r.byte = byte ∧ passes.length < 7 ∧
          ∃ ts q, (∀ o ∈ q, o.isIdleWait = true) ∧
            r.trace = h ++ Op.get port.pio port.sm w0 :: (timedReads port timeout_us passes ++
              (Op.make_timeout timeout_us ts ::
                (q ++ [Op.rx_fifo_empty port.pio port.sm true, Op.time_reached ts true])))))) ∧
      (r.ok = false ↔
        ∃ pre ts, r.trace =
          pre ++ [Op.rx_fifo_empty port.pio port.sm true, Op.time_reached ts true]) := by
  obtain ⟨w0, passes, hidle, hcase⟩ :=
    joybus_receive_byte_timeout_spec H port byte timeout_us fuel h r hr
  rcases hcase with ⟨hok, hlen, htrace, -⟩ | ⟨hok, hbyte, hlen, ts, q, hq, htrace⟩
  · refine ⟨⟨w0, passes, hidle, Or.inl ⟨hok, hlen, htrace⟩⟩, ?_⟩
    constructor
    · intro hfalse
      rw [hok] at hfalse
      exact absurd hfalse (by decide)
    · rintro ⟨pre, ts, hpre⟩
      obtain ⟨init, w, hw⟩ := timedReads_ends_with_get port timeout_us passes w0
      rw [htrace, hw, ← List.append_assoc] at hpre
      have hlast := congrArg List.getLast? hpre
      simp at hlast
  · refine ⟨⟨w0, passes, hidle, Or.inr ⟨hok, hbyte, hlen, ts, q, hq, htrace⟩⟩, ?_⟩
    constructor
    · intro _
      refine ⟨h ++ Op.get port.pio port.sm w0 :: (timedReads port timeout_us passes ++
        (Op.make_timeout timeout_us ts :: q)), ts, ?_⟩
      rw [htrace]; simp
    · intro _; exact hok

/-- Witness for C14: the queue delivers three bits and stops; the deadline of
the pass for bit 3 is reached with the queue empty, the call returns false
and `*byte` keeps the caller's `0x99`. -/
theorem joybus_receive_byte_timeout_policy_witness :
    joybus_receive_byte_timeout (scripted [3, 0, 1]) port0 0x99 500 20 [] =
      some ⟨false, 0x99,
        [Op.get 0 1 3,
          Op.make_timeout 500 500, Op.rx_fifo_empty 0 1 false, Op.get 0 1 0,
          Op.make_timeout 500 500, Op.rx_fifo_empty 0 1 false, Op.get 0 1 1,
          Op.make_timeout 500 500, Op.rx_fifo_empty 0 1 true, Op.time_reached 500 true]⟩ ∧
    (false = false ↔
      ∃ pre ts,
        [Op.get 0 1 3,
          Op.make_timeout 500 500, Op.rx_fifo_empty 0 1 false, Op.get 0 1 0,
          Op.make_timeout 500 500, Op.rx_fifo_empty 0 1 false, Op.get 0 1 1,
          Op.make_timeout 500 500, Op.rx_fifo_empty 0 1 true, Op.time_reached 500 true] =
        pre ++ [Op.rx_fifo_empty port0.pio port0.sm true, Op.time_reached ts true]) :=
  ⟨rfl,
    (joybus_receive_byte_timeout_policy (scripted [3, 0, 1]) port0 0x99 500 20 []
      ⟨false, 0x99,
        [Op.get 0 1 3,
          Op.make_timeout 500 500, Op.rx_fifo_empty 0 1 false, Op.get 0 1 0,
          Op.make_timeout 500 500, Op.rx_fifo_empty 0 1 false, Op.get 0 1 1,
          Op.make_timeout 500 500, Op.rx_fifo_empty 0 1 true, Op.time_reached 500 true]⟩
      rfl).2⟩


end Joybus
